import Mathlib

/-!
Verification of the haytex `Report` class (`src/haytex/report.py`).

The buffer `Report.report_text` is a list of strings, one per emitted line.
Each operation below is a shallow embedding of the corresponding Python
method: pure list/string manipulation, with Python exceptions modelled by
`Except` and the filesystem of `save_tex` abstracted by success oracles.
Literal braces in LaTeX line templates are written with `\x7b` / `\x7d`
escapes.
-/

namespace Haytex

/-- Mathematical ceiling of `a / b` (for `b ≠ 0`), written `-((-a).fdiv b)`;
this models Python `int(np.ceil(a / b))` on integer inputs. -/
def intCeilDiv (a b : Int) : Int := -((-a).fdiv b)

/-- One chunk-splitting pass, as written twice in `Report.add_figure`
(report.py lines 229-243): `m = int(np.ceil(len(l) / k))`, then for
`i in range(m)` take the slice `l[i*k:(i+1)*k]` when `(i+1)*k < len(l)`
and `l[i*k:]` otherwise.  A Python slice `l[a:b]` is `(l.take b).drop a`;
`range` of a non-positive number is empty, hence `.toNat`. -/
def splitChunks {α : Type} (l : List α) (k : Int) : List (List α) :=
  (List.range (intCeilDiv l.length k).toNat).map (fun (i : Nat) =>
    if ((i : Int) + 1) * k < (l.length : Int) then
      (l.take (((i : Int) + 1) * k).toNat).drop (((i : Int) * k).toNat)
    else
      l.drop (((i : Int) * k).toNat))

/-- ASCII reading of the regex word class used by `file_format_regex`
(report.py line 245); the repository only uses ASCII figure references. -/
def isWordChar (c : Char) : Bool := c.isAlphanum || c == '_'

/-- `file_format_regex.match(graph)` for the pattern `.*\.([\w]*)$`
(report.py lines 245, 254): the match succeeds iff the string contains a dot
and every character after the last dot is a word character; the captured
group is that (possibly empty) suffix. -/
def fileFormat (s : String) : Option String :=
  let cs := s.toList
  if cs.contains '.' then
    let ext := (cs.reverse.takeWhile (fun c => c ≠ '.')).reverse
    if ext.all isWordChar then some (String.mk ext) else none
  else none

/-- Python `str` of the float `num / 10`: every value reached by
`np.floor(10 / cols) / 10` is an exact decile, printed as e.g. `0.5`,
`1.0`, `-0.4`. -/
def floatDecileStr (num : Int) : String :=
  (if num < 0 then "-" else "")
    ++ toString (num.natAbs / 10) ++ "." ++ toString (num.natAbs % 10)

/-- `fig_sizing = np.floor(10 / cols) / 10` (report.py line 246), kept as the
decile numerator `floor(10 / cols)`. -/
def figSizing (cols : Int) : Int := Int.fdiv 10 cols

/-- The string interpolated for `fig_sizing` in the emitted lines. -/
def figSizingStr (cols : Int) : String := floatDecileStr (figSizing cols)

/-- Lines appended for one graph inside a row (report.py lines 253-270).
When the format regex does not match, nothing at all is appended: the
begin/end subfigure lines sit inside `if file_format is not None`. -/
def emitGraph (sizing : String) (graph : String) : List String :=
  match fileFormat graph with
  | none => []
  | some fmt =>
    ["\\begin\x7bsubfigure\x7d\x7b" ++ sizing ++ "\\textwidth\x7d",
     if fmt == "pgf" then
       "\\resizebox\x7b\\linewidth\x7d\x7b!\x7d\x7b\\input\x7b\"" ++ graph ++ "\"\x7d\x7d"
     else
       "\\includegraphics[width=" ++ sizing ++ "\\textwidth]\x7b" ++ graph ++ "\x7d",
     "\\end\x7bsubfigure\x7d"]

/-- The row loop of `Report.add_figure` (report.py lines 252-272): the items
of each row, then a blank separator line unless this is the page's last row.
`idx` is the 1-based `row_index` of `enumerate(fig_graphs, start=1)` and
`total` is `len(fig_graphs)`. -/
def emitRowsAux (sizing : String) (total : Nat) : Nat → List (List String) → List String
  | _, [] => []
  | idx, rowGraphs :: rest =>
      rowGraphs.flatMap (emitGraph sizing)
        ++ (if idx ≠ total then [""] else [])
        ++ emitRowsAux sizing total (idx + 1) rest

/-- The caption line, as built identically in `Report.add_figure` (report.py
lines 273-281) and `Report.add_table` (lines 349-357): bracketed with the
1-based index `idx` exactly when the partition has more than one
page/sub-table. -/
def captionLine (c : String) (total idx : Nat) : String :=
  if total > 1 then "\\caption\x7b" ++ c ++ " [" ++ toString idx ++ "]\x7d"
  else "\\caption\x7b" ++ c ++ "\x7d"

/-- Lines appended for one page of the figure grid (report.py lines 248-284):
begin-figure and centering, the rows, the optional caption (bracketed with
the 1-based page index when there is more than one page), end-figure, and a
`\clearpage` unless this is the last page. -/
def figPageLines (sizing : String) (caption : Option String) (total idx : Nat)
    (figGraphs : List (List String)) : List String :=
  ["\\begin\x7bfigure\x7d[H]", "\\centering"]
    ++ emitRowsAux sizing figGraphs.length 1 figGraphs
    ++ (match caption with
        | some c => [captionLine c total idx]
        | none => [])
    ++ ["\\end\x7bfigure\x7d"]
    ++ (if total ≠ idx then ["\\clearpage"] else [])

/-- The page loop `for fig_index, fig_graphs in enumerate(fig_list, start=1)`
(report.py line 247). -/
def emitFigsAux (sizing : String) (caption : Option String) (total : Nat) :
    Nat → List (List (List String)) → List String
  | _, [] => []
  | idx, pg :: rest =>
      figPageLines sizing caption total idx pg
        ++ emitFigsAux sizing caption total (idx + 1) rest

/-- The nested partition computed by `Report.add_figure` (report.py lines
229-243): items chunked into rows of at most `cols` entries, then rows
chunked into pages of at most `rows` rows. -/
def figPartition (figs : List String) (cols rows : Int) : List (List (List String)) :=
  splitChunks (splitChunks figs cols) rows

/-- Failure modes observable from the embedded operations. Python raises
`ZeroDivisionError` from `int(np.ceil(a / 0))`; `invalidArgument` stands for
the `InvalidArgument` report described by the spec, so that we can state
that the code never produces one. -/
inductive PyError
  | zeroDivision
  | invalidArgument
deriving DecidableEq, Repr

/-- `Report.add_figure` (report.py lines 188-284) acting on the
`report_text` buffer, with `figs` already in list form (the `isinstance`
normalization wraps a single string into a one-element list). An `.error`
result models an uncaught Python exception and carries the buffer as it
stood when the exception was raised: both `np.ceil` divisions (lines 230
and 238) happen before any line is appended. -/
def add_figure (report_text : List String) (figs : List String)
    (colsArg rowsArg : Option Int) (caption : Option String) :
    Except (PyError × List String) (List String) :=
  let cols : Int := colsArg.getD figs.length
  let rows : Int := rowsArg.getD 1
  if cols = 0 then .error (.zeroDivision, report_text)
  else if rows = 0 then .error (.zeroDivision, report_text)
  else
    let figList := figPartition figs cols rows
    .ok (report_text
          ++ emitFigsAux (figSizingStr cols) caption figList.length 1 figList)

/-- `Report.__init__` (report.py lines 86-98): the eleven scaffold lines.
The title line interpolates both title and subtitle into
`\title{<title>\\ \large <subtitle>}` unconditionally. -/
def reportInit (title subtitle author : String) : List String :=
  ["\\documentclass[12pt]\x7bbook\x7d",
   "\\usepackage\x7bStyle\x7d",
   "\\usepackage\x7bfloat\x7d",
   "\\usepackage\x7bgraphicx\x7d",
   "\\usepackage\x7bpgf\x7d",
   "\\usepackage\x7bsubcaption\x7d",
   "\\title\x7b" ++ title ++ "\\\\ \\large " ++ subtitle ++ "\x7d",
   "\\author\x7b" ++ author ++ "\x7d",
   "\\begin\x7bdocument\x7d",
   "\\maketitle",
   "\\tableofcontents"]

/-- `table.shape[1]`: the column count of the dataframe, modelled on a list
of rows as the length of the first row (pandas frames are rectangular; all
uses below carry a rectangularity hypothesis). -/
def shape1 {α : Type} (table : List (List α)) : Nat := (table.headD []).length

/-- The column-splitting loop of `Report.add_table` (report.py lines
324-331): `table.iloc[:, a:b]` slices every row of the frame. -/
def colSplit {α : Type} (table : List (List α)) (cols : Int) : List (List (List α)) :=
  (List.range (intCeilDiv (shape1 table) cols).toNat).map (fun (col : Nat) =>
    if ((col : Int) + 1) * cols < (shape1 table : Int) then
      table.map (fun r =>
        (r.take (((col : Int) + 1) * cols).toNat).drop (((col : Int) * cols).toNat))
    else
      table.map (fun r => r.drop (((col : Int) * cols).toNat)))

/-- The row-splitting loop of `Report.add_table` (report.py lines 333-342).
Both the chunk count and the slice condition use the ORIGINAL table's row
count `table.shape[0]` (= `origRows`), not the current sub-table's; the
Python loop accumulates every chunk of every column group into one
`temp_list`, which is this `flatMap`. -/
def rowSplitTab {α : Type} (origRows : Nat) (rows : Int)
    (tabs : List (List (List α))) : List (List (List α)) :=
  tabs.flatMap (fun tab =>
    (List.range (intCeilDiv origRows rows).toNat).map (fun (row : Nat) =>
      if ((row : Int) + 1) * rows < (origRows : Int) then
        (tab.take (((row : Int) + 1) * rows).toNat).drop (((row : Int) * rows).toNat)
      else
        tab.drop (((row : Int) * rows).toNat)))

/-- The `table_list` computed by `Report.add_table` (report.py lines
322-342): split by columns only when `shape[1] > cols`, then by rows only
when `shape[0] > rows`. -/
def tablePartition {α : Type} (table : List (List α)) (cols rows : Int) :
    List (List (List α)) :=
  let tableList := if (shape1 table : Int) > cols then colSplit table cols else [table]
  if (table.length : Int) > rows then rowSplitTab table.length rows tableList
  else tableList

/-- Lines appended for one sub-table (report.py lines 344-358), excluding the
trailing blank separator. `render` models the external
`tabular.style.to_latex().split("\n")` capability; the source drops that
list's last element (`[:-1]`). -/
def tableBlock {α : Type} (render : List (List α) → List String)
    (caption : Option String) (total idx : Nat) (tabular : List (List α)) :
    List String :=
  ["\\begin\x7btable\x7d[H]", "\\centering"]
    ++ (render tabular).dropLast
    ++ (match caption with
        | some c => [captionLine c total idx]
        | none => [])
    ++ ["\\end\x7btable\x7d"]

/-- The emission loop `for index, tabular in enumerate(table_list, start=1)`
(report.py lines 343-360): each block followed by a blank separator line
unless it is the last sub-table. -/
def emitTablesAux {α : Type} (render : List (List α) → List String)
    (caption : Option String) (total : Nat) :
    Nat → List (List (List α)) → List String
  | _, [] => []
  | idx, tab :: rest =>
      tableBlock render caption total idx tab
        ++ (if idx ≠ total then [""] else [])
        ++ emitTablesAux render caption total (idx + 1) rest

/-- `Report.add_table` (report.py lines 286-360). The `np.ceil` divisions
run only inside their respective `shape > bound` guards, so a zero bound
raises only when the corresponding split is attempted. -/
def add_table {α : Type} (report_text : List String)
    (render : List (List α) → List String) (table : List (List α))
    (colsArg rowsArg : Option Int) (caption : Option String) :
    Except (PyError × List String) (List String) :=
  let cols : Int := colsArg.getD (shape1 table)
  let rows : Int := rowsArg.getD table.length
  if (shape1 table : Int) > cols ∧ cols = 0 then .error (.zeroDivision, report_text)
  else if (table.length : Int) > rows ∧ rows = 0 then .error (.zeroDivision, report_text)
  else
    let tableList := tablePartition table cols rows
    .ok (report_text ++ emitTablesAux render caption tableList.length 1 tableList)

/-- Result of `Report.save_tex` (report.py lines 362-395). The filesystem is
abstracted by two oracles: `texOk` says whether opening and writing
`<path>/Report.tex` succeeds, `styOk` whether the style copy/write succeeds.
`texWritten` / `styWritten` record the content that reached disk; `raised`
is true when an I/O exception propagated to the caller. -/
structure SaveResult where
  report_text : List String
  texWritten : Option String
  styWritten : Option String
  raised : Bool
deriving DecidableEq, Repr

/-- The generated default style block (report.py lines 388-393). -/
def defaultStyle : List String :=
  ["\\usepackage\x7bmicrotype, color\x7d",
   "\\usepackage\x7btextcomp\x7d",
   "\\usepackage\x7bfontspec\x7d",
   "\\usepackage[margin=0.5in]\x7bgeometry\x7d"]

/-- `Report.save_tex`: append the closing marker, write the newline-joined
buffer, then copy the caller's style file (`styleSrc` is its content) or
write the generated default. The closing marker is appended before any
write, so a failing write leaves it in the buffer. -/
def save_tex (report_text : List String) (styleSrc : Option String)
    (texOk styOk : Bool) : SaveResult :=
  let buf := report_text ++ ["\\end\x7bdocument\x7d"]
  if texOk = false then ⟨buf, none, none, true⟩
  else
    let texContent := String.intercalate "\n" buf
    match styleSrc with
    | some src =>
      if styOk = false then ⟨buf, some texContent, none, true⟩
      else ⟨buf, some texContent, some src, false⟩
    | none =>
      if styOk = false then ⟨buf, some texContent, none, true⟩
      else ⟨buf, some texContent, some (String.intercalate "\n" defaultStyle), false⟩

/-! ### Auxiliary definitions used to state and prove the properties -/

/-- `⌈n / k⌉` over naturals, for `k ≥ 1`. -/
def ceilN (n k : Nat) : Nat := (n + k - 1) / k

/-- Normal form of the chunk-splitting pass: the `i`-th chunk is
`(l.drop (i * k)).take k`. -/
def chunks {α : Type} (l : List α) (k : Nat) : List (List α) :=
  (List.range (ceilN l.length k)).map (fun i => (l.drop (i * k)).take k)

/-- Recognizes an emitted caption line. -/
def isCaptionLine (s : String) : Bool :=
  List.isPrefixOf "\\caption\x7b".data s.data

/-- Recognizes an emitted begin-subfigure line. -/
def isBeginSubfig (s : String) : Bool :=
  List.isPrefixOf "\\begin\x7bsubfigure\x7d\x7b".data s.data

/-! ### Ceiling-division arithmetic -/

theorem ceilN_zero (k : Nat) (hk : 1 ≤ k) : ceilN 0 k = 0 := by
  unfold ceilN
  exact Nat.div_eq_of_lt (by omega)

theorem ceilN_eq (n k : Nat) (hn : 1 ≤ n) (hk : 1 ≤ k) :
    ceilN n k = (n - 1) / k + 1 := by
  unfold ceilN
  rw [show n + k - 1 = (n - 1) + k by omega, Nat.add_div_right _ (by omega)]

theorem ceilN_succ (n k : Nat) (hk : 1 ≤ k) (hn : 1 ≤ n) :
    ceilN n k = ceilN (n - k) k + 1 := by
  by_cases h : n ≤ k
  · rw [ceilN_eq n k hn hk, show n - k = 0 by omega, ceilN_zero k hk,
      Nat.div_eq_of_lt (by omega)]
  · rw [ceilN_eq n k hn hk, ceilN_eq (n - k) k (by omega) hk,
      show n - 1 = (n - k - 1) + k by omega, Nat.add_div_right _ (by omega)]

theorem lt_ceilN_imp {n k i : Nat} (hk : 1 ≤ k) (hi : i < ceilN n k) :
    i * k < n := by
  by_contra h
  push_neg at h
  have hle : ceilN n k ≤ i := by
    calc ceilN n k = (n + k - 1) / k := rfl
    _ ≤ ((k - 1) + i * k) / k := Nat.div_le_div_right (by omega)
    _ = (k - 1) / k + i := Nat.add_mul_div_right _ _ (by omega)
    _ = i := by rw [Nat.div_eq_of_lt (by omega)]; omega
  omega

theorem ceilN_pos (n k : Nat) (hn : 1 ≤ n) (hk : 1 ≤ k) : 1 ≤ ceilN n k := by
  rw [ceilN_eq n k hn hk]
  exact Nat.succ_le_succ (Nat.zero_le _)

theorem intCeilDiv_natCast (n k : Nat) (hk : 1 ≤ k) :
    intCeilDiv (n : Int) (k : Int) = (ceilN n k : Int) := by
  obtain ⟨j, rfl⟩ : ∃ j, k = j + 1 := ⟨k - 1, by omega⟩
  cases n with
  | zero =>
      simp [intCeilDiv, Int.zero_fdiv, ceilN_zero (j + 1) (by omega)]
  | succ m =>
      have h1 : (-((m + 1 : Nat) : Int)) = Int.negSucc m := by
        rw [Int.negSucc_eq]
        push_cast
        ring
      have h2 : (Int.negSucc m).fdiv ((j + 1 : Nat) : Int) =
          Int.negSucc (m / (j + 1)) := rfl
      unfold intCeilDiv
      rw [h1, h2, Int.neg_negSucc, ceilN_eq (m + 1) (j + 1) (by omega) (by omega)]
      push_cast
      simp

theorem intCeilDiv_nonpos (n : Nat) (k : Int) (hk : k < 0) :
    intCeilDiv (n : Int) k ≤ 0 := by
  cases n with
  | zero => simp [intCeilDiv, Int.zero_fdiv]
  | succ m =>
      cases k with
      | ofNat p => exact absurd hk (not_lt.mpr (Int.ofNat_nonneg p))
      | negSucc j =>
          have h1 : (-((m + 1 : Nat) : Int)) = Int.negSucc m := by
            rw [Int.negSucc_eq]
            push_cast
            ring
          have h2 : (Int.negSucc m).fdiv (Int.negSucc j) =
              Int.ofNat ((m + 1) / (j + 1)) := rfl
          unfold intCeilDiv
          rw [h1, h2]
          have h3 : (0 : Int) ≤ Int.ofNat ((m + 1) / (j + 1)) :=
            Int.ofNat_nonneg _
          omega

/-! ### The chunk-splitting pass in normal form -/

theorem splitChunks_eq_chunks {α : Type} (l : List α) (k : Nat) (hk : 1 ≤ k) :
    splitChunks l (k : Int) = chunks l k := by
  unfold splitChunks chunks
  rw [intCeilDiv_natCast l.length k hk, Int.toNat_natCast]
  apply List.map_congr_left
  intro i hi
  rw [List.mem_range] at hi
  have hik : ((i : Int) + 1) * (k : Int) = (((i + 1) * k : Nat) : Int) := by
    push_cast
    ring
  have hik2 : (i : Int) * (k : Int) = ((i * k : Nat) : Int) := by push_cast; rfl
  rw [hik, hik2, Int.toNat_natCast, Int.toNat_natCast]
  by_cases h : (i + 1) * k < l.length
  · rw [if_pos (by exact_mod_cast h), List.drop_take,
      show (i + 1) * k - i * k = k by rw [Nat.succ_mul]; omega]
  · rw [if_neg (by exact_mod_cast h)]
    have hlen : l.length - i * k ≤ k := by
      rw [Nat.succ_mul] at h
      omega
    rw [List.take_of_length_le (by rw [List.length_drop]; exact hlen)]

theorem chunks_length {α : Type} (l : List α) (k : Nat) :
    (chunks l k).length = ceilN l.length k := by
  simp [chunks]

theorem chunks_cons {α : Type} (l : List α) (k : Nat) (hk : 1 ≤ k) (hl : l ≠ []) :
    chunks l k = l.take k :: chunks (l.drop k) k := by
  have hn : 1 ≤ l.length := List.length_pos.mpr hl
  unfold chunks
  rw [List.length_drop, ceilN_succ l.length k hk hn, List.range_succ_eq_map,
    List.map_cons]
  simp only [Nat.zero_mul, List.drop_zero]
  congr 1
  rw [List.map_map]
  apply List.map_congr_left
  intro i hi
  simp only [Function.comp_apply]
  rw [List.drop_drop, show Nat.succ i * k = k + i * k by rw [Nat.succ_mul]; omega]

theorem chunks_flatten {α : Type} (l : List α) (k : Nat) (hk : 1 ≤ k) :
    (chunks l k).flatten = l := by
  generalize hn : l.length = n
  induction n using Nat.strong_induction_on generalizing l with
  | _ n ih =>
      cases l with
      | nil => simp [chunks, ceilN_zero k hk]
      | cons a t =>
          rw [chunks_cons _ k hk (by simp), List.flatten_cons,
            ih ((a :: t).drop k).length ?_ _ rfl, List.take_append_drop]
          subst hn
          rw [List.length_drop]
          simp only [List.length_cons]
          omega

theorem chunks_mem_length_le {α : Type} (l : List α) (k : Nat) (c : List α)
    (hc : c ∈ chunks l k) : c.length ≤ k := by
  unfold chunks at hc
  rw [List.mem_map] at hc
  obtain ⟨i, hi, rfl⟩ := hc
  rw [List.length_take]
  omega

theorem chunks_mem_form {α : Type} (l : List α) (k : Nat) (c : List α)
    (hc : c ∈ chunks l k) :
    ∃ i, i < ceilN l.length k ∧ c = (l.drop (i * k)).take k := by
  unfold chunks at hc
  rw [List.mem_map] at hc
  obtain ⟨i, hi, rfl⟩ := hc
  exact ⟨i, List.mem_range.mp hi, rfl⟩

theorem chunks_mem_ne_nil {α : Type} (l : List α) (k : Nat) (hk : 1 ≤ k)
    (c : List α) (hc : c ∈ chunks l k) : c ≠ [] := by
  obtain ⟨i, hi, rfl⟩ := chunks_mem_form l k c hc
  have hlt : i * k < l.length := lt_ceilN_imp hk hi
  have : 0 < ((l.drop (i * k)).take k).length := by
    rw [List.length_take, List.length_drop]
    omega
  exact List.ne_nil_of_length_pos this

theorem chunks_getElem {α : Type} (l : List α) (k i : Nat)
    (hi : i < (chunks l k).length) :
    (chunks l k).get ⟨i, hi⟩ = (l.drop (i * k)).take k := by
  unfold chunks at hi ⊢
  simp only [List.get_eq_getElem, List.getElem_map, List.getElem_range]

theorem chunks_full {α : Type} (l : List α) (k i : Nat) (hk : 1 ≤ k)
    (hi : i + 1 < ceilN l.length k) :
    ((l.drop (i * k)).take k).length = k := by
  have h := lt_ceilN_imp hk hi
  rw [Nat.succ_mul] at h
  rw [List.length_take, List.length_drop]
  omega

theorem chunks_getElemOpt {α : Type} (l : List α) (k i : Nat)
    (hi : i < ceilN l.length k) :
    (chunks l k)[i]? = some ((l.drop (i * k)).take k) := by
  unfold chunks
  rw [List.getElem?_map, List.getElem?_range hi]
  rfl

theorem figPartition_eq_chunks (figs : List String) (c r : Nat)
    (hc : 1 ≤ c) (hr : 1 ≤ r) :
    figPartition figs (c : Int) (r : Int) = chunks (chunks figs c) r := by
  unfold figPartition
  rw [splitChunks_eq_chunks _ _ hc, splitChunks_eq_chunks _ _ hr]

/-- Claim C1. For a non-empty figure sequence of length `n` and
`maxCols = c ≥ 1`, `maxRows = r ≥ 1`, `add_figure` partitions the items into
`⌈n/c⌉` rows and `⌈⌈n/c⌉/r⌉` pages; flattening in page-then-row-then-item
order reproduces the input exactly; each row has at most `c` items and each
page at most `r` rows; every page other than the last has exactly `r` rows;
and inside each page, every row other than that page's last has exactly `c`
items. -/
theorem add_figure_partition (figs : List String) (c r : Nat)
    (hn : figs ≠ []) (hc : 1 ≤ c) (hr : 1 ≤ r) :
    (splitChunks figs (c : Int)).length = ceilN figs.length c ∧
    (figPartition figs (c : Int) (r : Int)).length =
      ceilN (ceilN figs.length c) r ∧
    (figPartition figs (c : Int) (r : Int)).flatten.flatten = figs ∧
    (∀ pg ∈ figPartition figs (c : Int) (r : Int), pg.length ≤ r) ∧
    (∀ i, i + 1 < (figPartition figs (c : Int) (r : Int)).length →
      ∃ pg, (figPartition figs (c : Int) (r : Int))[i]? = some pg ∧
        pg.length = r) ∧
    (∀ pg ∈ figPartition figs (c : Int) (r : Int), ∀ row ∈ pg,
      row.length ≤ c) ∧
    (∀ pg ∈ figPartition figs (c : Int) (r : Int), ∀ i, i + 1 < pg.length →
      ∃ row, pg[i]? = some row ∧ row.length = c) := by
  have hEq := figPartition_eq_chunks figs c r hc hr
  have hrows : splitChunks figs (c : Int) = chunks figs c :=
    splitChunks_eq_chunks figs c hc
  have hXlen : (chunks figs c).length = ceilN figs.length c :=
    chunks_length figs c
  refine ⟨?_, ?_, ?_, ?_, ?_, ?_, ?_⟩
  · rw [hrows, hXlen]
  · rw [hEq, chunks_length, hXlen]
  · rw [hEq, chunks_flatten _ r hr, chunks_flatten _ c hc]
  · intro pg hpg
    rw [hEq] at hpg
    exact chunks_mem_length_le _ r pg hpg
  · intro i hi
    rw [hEq, chunks_length, hXlen] at hi
    rw [hEq]
    have hi2 : i + 1 < ceilN (chunks figs c).length r := by
      rw [hXlen]
      exact hi
    exact ⟨_, chunks_getElemOpt _ r i (by omega), chunks_full _ r i hr hi2⟩
  · intro pg hpg row hrow
    rw [hEq] at hpg
    obtain ⟨j, hj, rfl⟩ := chunks_mem_form _ r pg hpg
    have hsub : (((chunks figs c).drop (j * r)).take r).Sublist (chunks figs c) :=
      (List.take_sublist _ _).trans (List.drop_sublist _ _)
    exact chunks_mem_length_le figs c row (List.Sublist.mem hrow hsub)
  · intro pg hpg i hi
    rw [hEq] at hpg
    obtain ⟨j, hj, rfl⟩ := chunks_mem_form _ r pg hpg
    rw [List.length_take, List.length_drop] at hi
    have hidx : j * r + i < ceilN figs.length c := by
      rw [← hXlen]
      omega
    have hidx2 : j * r + i + 1 < ceilN figs.length c := by
      rw [← hXlen]
      omega
    refine ⟨(figs.drop ((j * r + i) * c)).take c, ?_, ?_⟩
    · rw [List.getElem?_take, if_pos (by omega), List.getElem?_drop]
      exact chunks_getElemOpt figs c (j * r + i) hidx
    · exact chunks_full figs c (j * r + i) hc hidx2

/-- Concrete instance of `add_figure_partition`: five items, `c = 2`,
`r = 2`. -/
theorem add_figure_partition_witness :
    (["a", "b", "c", "d", "e"] : List String) ≠ [] ∧ (1 : Nat) ≤ 2 ∧
    ((splitChunks (["a", "b", "c", "d", "e"] : List String) (2 : Int)).length =
      ceilN (["a", "b", "c", "d", "e"] : List String).length 2 ∧
    (figPartition ["a", "b", "c", "d", "e"] (2 : Int) (2 : Int)).length =
      ceilN (ceilN (["a", "b", "c", "d", "e"] : List String).length 2) 2 ∧
    (figPartition ["a", "b", "c", "d", "e"] (2 : Int) (2 : Int)).flatten.flatten =
      ["a", "b", "c", "d", "e"] ∧
    (∀ pg ∈ figPartition ["a", "b", "c", "d", "e"] (2 : Int) (2 : Int),
      pg.length ≤ 2) ∧
    (∀ i, i + 1 < (figPartition ["a", "b", "c", "d", "e"] (2 : Int) (2 : Int)).length →
      ∃ pg, (figPartition ["a", "b", "c", "d", "e"] (2 : Int) (2 : Int))[i]? = some pg ∧
        pg.length = 2) ∧
    (∀ pg ∈ figPartition ["a", "b", "c", "d", "e"] (2 : Int) (2 : Int), ∀ row ∈ pg,
      row.length ≤ 2) ∧
    (∀ pg ∈ figPartition ["a", "b", "c", "d", "e"] (2 : Int) (2 : Int),
      ∀ i, i + 1 < pg.length →
      ∃ row, pg[i]? = some row ∧ row.length = 2)) :=
  ⟨by decide, by decide,
    add_figure_partition ["a", "b", "c", "d", "e"] 2 2 (by decide) (by decide)
      (by decide)⟩

/-! ### String-prefix helpers for classifying emitted lines -/

theorem isPrefixOf_append_of_isPrefixOf {p a : List Char} (b : List Char)
    (h : p.isPrefixOf a = true) : p.isPrefixOf (a ++ b) = true := by
  rw [List.isPrefixOf_iff_prefix] at h ⊢
  exact h.trans (List.prefix_append a b)

theorem prefix_append_cases {p a b : List Char} (h : p <+: a ++ b) :
    p <+: a ∨ a <+: p := by
  rcases le_or_lt p.length a.length with hle | hlt
  · left
    rw [List.prefix_iff_eq_take] at h
    rw [List.take_append_of_le_length hle] at h
    exact List.prefix_iff_eq_take.mpr h
  · right
    rw [List.prefix_iff_eq_take] at h
    have h1 : ((a ++ b).take p.length).take a.length = a := by
      rw [List.take_take, min_eq_left hlt.le, List.take_left]
    rw [← h] at h1
    exact List.prefix_iff_eq_take.mpr h1.symm

theorem isPrefixOf_append_false {p a : List Char} (b : List Char)
    (h1 : p.isPrefixOf a = false) (h2 : a.isPrefixOf p = false) :
    p.isPrefixOf (a ++ b) = false := by
  by_contra hcon
  rw [Bool.not_eq_false, List.isPrefixOf_iff_prefix] at hcon
  rcases prefix_append_cases hcon with hc | hc
  · rw [List.isPrefixOf_iff_prefix.mpr hc] at h1
    cases h1
  · rw [List.isPrefixOf_iff_prefix.mpr hc] at h2
    cases h2

theorem str_append_ne (p s z : String)
    (h : p.data.isPrefixOf z.data = false) : p ++ s ≠ z := by
  intro he
  have hd : p.data.isPrefixOf (p.data ++ s.data) = true := by
    rw [List.isPrefixOf_iff_prefix]
    exact List.prefix_append _ _
  rw [← String.data_append, he, h] at hd
  cases hd

/-- Every line emitted for one graph is nonempty, is not a caption line, is
not a page break, and the only begin-subfigure-shaped line among them is the
canonical one for the given sizing. -/
theorem emitGraph_lines (sizing g line : String)
    (h : line ∈ emitGraph sizing g) :
    line ≠ "" ∧ isCaptionLine line = false ∧ line ≠ "\\clearpage" ∧
    (isBeginSubfig line = true →
      line = "\\begin\x7bsubfigure\x7d\x7b" ++ sizing ++ "\\textwidth\x7d") := by
  unfold emitGraph at h
  cases hf : fileFormat g with
  | none => rw [hf] at h; cases h
  | some fmt =>
      rw [hf] at h
      rw [List.mem_cons, List.mem_cons, List.mem_cons] at h
      rcases h with rfl | rfl | rfl | h
      · simp only [String.append_assoc]
        refine ⟨str_append_ne _ _ _ (by decide), ?_, str_append_ne _ _ _ (by decide), ?_⟩
        · unfold isCaptionLine
          rw [String.data_append]
          exact isPrefixOf_append_false _ (by decide) (by decide)
        · intro _
          exact trivial
      · by_cases hp : fmt == "pgf"
        · rw [if_pos hp]
          simp only [String.append_assoc]
          refine ⟨str_append_ne _ _ _ (by decide), ?_, str_append_ne _ _ _ (by decide), ?_⟩
          · unfold isCaptionLine
            rw [String.data_append]
            exact isPrefixOf_append_false _ (by decide) (by decide)
          · intro hb
            unfold isBeginSubfig at hb
            rw [String.data_append, isPrefixOf_append_false _ (by decide) (by decide)] at hb
            cases hb
        · rw [if_neg hp]
          simp only [String.append_assoc]
          refine ⟨str_append_ne _ _ _ (by decide), ?_, str_append_ne _ _ _ (by decide), ?_⟩
          · unfold isCaptionLine
            rw [String.data_append]
            exact isPrefixOf_append_false _ (by decide) (by decide)
          · intro hb
            unfold isBeginSubfig at hb
            rw [String.data_append, isPrefixOf_append_false _ (by decide) (by decide)] at hb
            cases hb
      · refine ⟨by decide, by decide, by decide, ?_⟩
        intro hb
        rw [show isBeginSubfig "\\end\x7bsubfigure\x7d" = false by decide] at hb
        cases hb
      · cases h

theorem captionLine_ne_empty (c : String) (total idx : Nat) :
    captionLine c total idx ≠ "" := by
  unfold captionLine
  by_cases h : total > 1 <;> simp only [h, if_true, if_false, String.append_assoc]
  · exact str_append_ne _ _ _ (by decide)
  · exact str_append_ne _ _ _ (by decide)

theorem captionLine_ne_clearpage (c : String) (total idx : Nat) :
    captionLine c total idx ≠ "\\clearpage" := by
  unfold captionLine
  by_cases h : total > 1 <;> simp only [h, if_true, if_false, String.append_assoc]
  · exact str_append_ne _ _ _ (by decide)
  · exact str_append_ne _ _ _ (by decide)

theorem captionLine_isCaption (c : String) (total idx : Nat) :
    isCaptionLine (captionLine c total idx) = true := by
  unfold captionLine isCaptionLine
  by_cases h : total > 1 <;>
    simp only [h, if_true, if_false, String.append_assoc, String.data_append]
  · exact isPrefixOf_append_of_isPrefixOf _ (by decide)
  · exact isPrefixOf_append_of_isPrefixOf _ (by decide)

theorem captionLine_not_beginSubfig (c : String) (total idx : Nat) :
    isBeginSubfig (captionLine c total idx) = false := by
  unfold captionLine isBeginSubfig
  by_cases h : total > 1 <;>
    simp only [h, if_true, if_false, String.append_assoc, String.data_append]
  · exact isPrefixOf_append_false _ (by decide) (by decide)
  · exact isPrefixOf_append_false _ (by decide) (by decide)

/-- Every line of the row loop is either an item line or a blank separator:
none is a caption or page break, and begin-subfigure lines are canonical. -/
theorem emitRowsAux_lines (sizing : String) (total : Nat)
    (rgs : List (List String)) (idx : Nat) (line : String)
    (h : line ∈ emitRowsAux sizing total idx rgs) :
    isCaptionLine line = false ∧ line ≠ "\\clearpage" ∧
    (isBeginSubfig line = true →
      line = "\\begin\x7bsubfigure\x7d\x7b" ++ sizing ++ "\\textwidth\x7d") := by
  induction rgs generalizing idx with
  | nil => cases h
  | cons rg rest ih =>
      unfold emitRowsAux at h
      rw [List.mem_append, List.mem_append] at h
      rcases h with (h | h) | h
      · rw [List.mem_flatMap] at h
        obtain ⟨g, _, hline⟩ := h
        obtain ⟨_, h2, h3, h4⟩ := emitGraph_lines sizing g line hline
        exact ⟨h2, h3, h4⟩
      · have hline : line = "" := by
          by_cases hc : idx ≠ total
          · rw [if_pos hc] at h
            simpa using h
          · rw [if_neg hc] at h
            cases h
        subst hline
        refine ⟨by decide, by decide, fun hb => ?_⟩
        rw [show isBeginSubfig "" = false by decide] at hb
        cases hb
      · exact ih (idx + 1) h

theorem emitRowsAux_count_blank (sizing : String) (rgs : List (List String)) :
    ∀ (idx total : Nat), idx + rgs.length = total + 1 →
      (emitRowsAux sizing total idx rgs).countP (fun s => s == "") =
        rgs.length - 1 := by
  induction rgs with
  | nil => intro idx total _; rfl
  | cons rg rest ih =>
      intro idx total hinv
      have h0 : (rg.flatMap (emitGraph sizing)).countP (fun s => s == "") = 0 := by
        rw [List.countP_eq_zero]
        intro a ha
        rw [List.mem_flatMap] at ha
        obtain ⟨g, _, hline⟩ := ha
        simp only [Bool.not_eq_true, beq_eq_false_iff_ne, ne_eq]
        exact (emitGraph_lines sizing g a hline).1
      unfold emitRowsAux
      rw [List.countP_append, List.countP_append, h0]
      cases rest with
      | nil =>
          have hidx : idx = total := by
            simp only [List.length_cons, List.length_nil] at hinv
            omega
          rw [if_neg (by omega)]
          rfl
      | cons r2 rest2 =>
          have hidx : idx ≠ total := by
            simp only [List.length_cons] at hinv
            omega
          rw [if_pos hidx,
            ih (idx + 1) total (by simp only [List.length_cons] at hinv ⊢; omega)]
          simp only [List.length_cons]
          rw [show List.countP (fun s => s == "") [""] = 1 by decide]
          omega

theorem emitRowsAux_count_clearpage (sizing : String) (rgs : List (List String)) :
    ∀ (idx total : Nat),
      (emitRowsAux sizing total idx rgs).countP (fun s => s == "\\clearpage") = 0 := by
  induction rgs with
  | nil => intro idx total; rfl
  | cons rg rest ih =>
      intro idx total
      unfold emitRowsAux
      rw [List.countP_append, List.countP_append, ih (idx + 1) total]
      have h0 : (rg.flatMap (emitGraph sizing)).countP (fun s => s == "\\clearpage") = 0 := by
        rw [List.countP_eq_zero]
        intro a ha
        rw [List.mem_flatMap] at ha
        obtain ⟨g, _, hline⟩ := ha
        simp only [Bool.not_eq_true]
        exact beq_eq_false_iff_ne.mpr (emitGraph_lines sizing g a hline).2.2.1
      rw [h0]
      by_cases hc : idx ≠ total
      · rw [if_pos hc]
        rfl
      · rw [if_neg hc]
        rfl

theorem emitRowsAux_filter_caption (sizing : String) (rgs : List (List String)) :
    ∀ (idx total : Nat),
      (emitRowsAux sizing total idx rgs).filter isCaptionLine = [] := by
  intro idx total
  rw [List.filter_eq_nil_iff]
  intro a ha
  rw [(emitRowsAux_lines sizing total rgs idx a ha).1]
  exact Bool.false_ne_true

theorem figPageLines_count_blank (sizing : String) (cap : Option String)
    (total idx : Nat) (pg : List (List String)) :
    (figPageLines sizing cap total idx pg).countP (fun s => s == "") =
      pg.length - 1 := by
  unfold figPageLines
  rw [List.countP_append, List.countP_append, List.countP_append,
    List.countP_append, emitRowsAux_count_blank sizing pg 1 pg.length (by omega)]
  have hcap : List.countP (fun s => s == "")
      (match cap with | some c => [captionLine c total idx] | none => []) = 0 := by
    cases cap with
    | none => rfl
    | some c =>
        rw [List.countP_singleton,
          if_neg (by rw [beq_eq_false_iff_ne.mpr (captionLine_ne_empty c total idx)]; exact Bool.false_ne_true)]
  have hcp : List.countP (fun s => s == "")
      (if total ≠ idx then ["\\clearpage"] else []) = 0 := by
    by_cases h : total ≠ idx
    · rw [if_pos h]
      decide
    · rw [if_neg h]
      rfl
  rw [hcap, hcp,
    show List.countP (fun s => s == "") ["\\begin\x7bfigure\x7d[H]", "\\centering"] = 0 by decide,
    show List.countP (fun s => s == "") ["\\end\x7bfigure\x7d"] = 0 by decide]
  omega

theorem figPageLines_count_clearpage (sizing : String) (cap : Option String)
    (total idx : Nat) (pg : List (List String)) :
    (figPageLines sizing cap total idx pg).countP (fun s => s == "\\clearpage") =
      if total ≠ idx then 1 else 0 := by
  unfold figPageLines
  rw [List.countP_append, List.countP_append, List.countP_append,
    List.countP_append, emitRowsAux_count_clearpage sizing pg 1 pg.length]
  have hcap : List.countP (fun s => s == "\\clearpage")
      (match cap with | some c => [captionLine c total idx] | none => []) = 0 := by
    cases cap with
    | none => rfl
    | some c =>
        rw [List.countP_singleton,
          if_neg (by rw [beq_eq_false_iff_ne.mpr (captionLine_ne_clearpage c total idx)]; exact Bool.false_ne_true)]
  have hcp : List.countP (fun s => s == "\\clearpage")
      (if total ≠ idx then ["\\clearpage"] else []) =
      if total ≠ idx then 1 else 0 := by
    by_cases h : total ≠ idx
    · rw [if_pos h, if_pos h]
      decide
    · rw [if_neg h, if_neg h]
      rfl
  rw [hcap, hcp,
    show List.countP (fun s => s == "\\clearpage") ["\\begin\x7bfigure\x7d[H]", "\\centering"] = 0 by decide,
    show List.countP (fun s => s == "\\clearpage") ["\\end\x7bfigure\x7d"] = 0 by decide]
  by_cases h : total ≠ idx
  · rw [if_pos h]
  · rw [if_neg h]

theorem figPageLines_filter_caption (sizing cap : String) (total idx : Nat)
    (pg : List (List String)) :
    (figPageLines sizing (some cap) total idx pg).filter isCaptionLine =
      [captionLine cap total idx] := by
  unfold figPageLines
  rw [List.filter_append, List.filter_append, List.filter_append,
    List.filter_append, emitRowsAux_filter_caption sizing pg 1 pg.length]
  have hcp : (if total ≠ idx then ["\\clearpage"] else []).filter isCaptionLine = [] := by
    by_cases h : total ≠ idx
    · rw [if_pos h]
      decide
    · rw [if_neg h]
      rfl
  rw [hcp,
    show (["\\begin\x7bfigure\x7d[H]", "\\centering"] : List String).filter isCaptionLine = [] by decide,
    show (["\\end\x7bfigure\x7d"] : List String).filter isCaptionLine = [] by decide]
  simp only [List.append_nil, List.nil_append]
  exact List.filter_cons_of_pos (captionLine_isCaption cap total idx) |>.trans
    (by rw [List.filter_nil])

theorem figPageLines_filter_caption_none (sizing : String) (total idx : Nat)
    (pg : List (List String)) :
    (figPageLines sizing none total idx pg).filter isCaptionLine = [] := by
  unfold figPageLines
  rw [List.filter_append, List.filter_append, List.filter_append,
    List.filter_append, emitRowsAux_filter_caption sizing pg 1 pg.length]
  have hcp : (if total ≠ idx then ["\\clearpage"] else []).filter isCaptionLine = [] := by
    by_cases h : total ≠ idx
    · rw [if_pos h]
      decide
    · rw [if_neg h]
      rfl
  rw [hcp,
    show (["\\begin\x7bfigure\x7d[H]", "\\centering"] : List String).filter isCaptionLine = [] by decide,
    show (["\\end\x7bfigure\x7d"] : List String).filter isCaptionLine = [] by decide]
  rfl

theorem emitFigsAux_count_blank (sizing : String) (cap : Option String)
    (total : Nat) (P : List (List (List String))) :
    ∀ (idx : Nat),
      (emitFigsAux sizing cap total idx P).countP (fun s => s == "") =
        (P.map (fun pg => pg.length - 1)).sum := by
  induction P with
  | nil => intro idx; rfl
  | cons pg rest ih =>
      intro idx
      unfold emitFigsAux
      rw [List.countP_append, figPageLines_count_blank, ih (idx + 1),
        List.map_cons, List.sum_cons]

theorem emitFigsAux_count_clearpage (sizing : String) (cap : Option String)
    (P : List (List (List String))) :
    ∀ (idx total : Nat), idx + P.length = total + 1 →
      (emitFigsAux sizing cap total idx P).countP (fun s => s == "\\clearpage") =
        P.length - 1 := by
  induction P with
  | nil => intro idx total _; rfl
  | cons pg rest ih =>
      intro idx total hinv
      unfold emitFigsAux
      rw [List.countP_append, figPageLines_count_clearpage]
      cases rest with
      | nil =>
          have hidx : total = idx := by
            simp only [List.length_cons, List.length_nil] at hinv
            omega
          rw [if_neg (by omega)]
          rfl
      | cons p2 rest2 =>
          have hidx : total ≠ idx := by
            simp only [List.length_cons] at hinv
            omega
          rw [if_pos hidx,
            ih (idx + 1) total (by simp only [List.length_cons] at hinv ⊢; omega)]
          simp only [List.length_cons]
          omega

theorem emitFigsAux_filter_caption (sizing cap : String)
    (P : List (List (List String))) :
    ∀ (idx total : Nat),
      (emitFigsAux sizing (some cap) total idx P).filter isCaptionLine =
        (List.range P.length).map (fun i => captionLine cap total (idx + i)) := by
  induction P with
  | nil => intro idx total; rfl
  | cons pg rest ih =>
      intro idx total
      unfold emitFigsAux
      rw [List.filter_append, figPageLines_filter_caption, ih (idx + 1) total,
        List.cons_append, List.nil_append, List.length_cons,
        List.range_succ_eq_map, List.map_cons, List.map_map]
      congr 1
      apply List.map_congr_left
      intro i _
      show captionLine cap total (idx + 1 + i) = captionLine cap total (idx + Nat.succ i)
      congr 1
      omega

theorem emitFigsAux_filter_caption_none (sizing : String)
    (P : List (List (List String))) :
    ∀ (idx total : Nat),
      (emitFigsAux sizing none total idx P).filter isCaptionLine = [] := by
  induction P with
  | nil => intro idx total; rfl
  | cons pg rest ih =>
      intro idx total
      unfold emitFigsAux
      rw [List.filter_append, figPageLines_filter_caption_none, ih (idx + 1) total]
      rfl

/-- Claim C3. On a successful `add_figure` call, a given caption is
emitted exactly once per page (caption count = page count), each caption
line carries a bracketed 1-based page index suffix iff the page count
exceeds one, and with no caption no caption line is emitted. -/
theorem add_figure_captions (buf figs : List String) (c r : Int) (cap : String)
    (hc : c ≠ 0) (hr : r ≠ 0) :
    ∃ out, add_figure buf figs (some c) (some r) (some cap) = .ok (buf ++ out) ∧
      out.countP isCaptionLine = (figPartition figs c r).length ∧
      ((figPartition figs c r).length > 1 →
        out.filter isCaptionLine =
          (List.range (figPartition figs c r).length).map (fun i =>
            "\\caption\x7b" ++ cap ++ " [" ++ toString (1 + i) ++ "]\x7d")) ∧
      (¬ (figPartition figs c r).length > 1 →
        out.filter isCaptionLine =
          List.replicate (figPartition figs c r).length
            ("\\caption\x7b" ++ cap ++ "\x7d")) ∧
      ∃ outN, add_figure buf figs (some c) (some r) none = .ok (buf ++ outN) ∧
        outN.countP isCaptionLine = 0 := by
  refine ⟨emitFigsAux (figSizingStr c) (some cap) (figPartition figs c r).length 1
      (figPartition figs c r), ?_, ?_, ?_, ?_,
    emitFigsAux (figSizingStr c) none (figPartition figs c r).length 1
      (figPartition figs c r), ?_, ?_⟩
  · simp [add_figure, hc, hr]
  · rw [List.countP_eq_length_filter, emitFigsAux_filter_caption,
      List.length_map, List.length_range]
  · intro hgt
    rw [emitFigsAux_filter_caption]
    apply List.map_congr_left
    intro i _
    unfold captionLine
    rw [if_pos hgt]
  · intro hle
    rw [emitFigsAux_filter_caption]
    have : ∀ i ∈ List.range (figPartition figs c r).length,
        captionLine cap (figPartition figs c r).length (1 + i) =
          "\\caption\x7b" ++ cap ++ "\x7d" := by
      intro i _
      unfold captionLine
      rw [if_neg hle]
    rw [List.map_congr_left this]
    rw [show (fun (_ : Nat) => "\\caption\x7b" ++ cap ++ "\x7d") =
        Function.const Nat ("\\caption\x7b" ++ cap ++ "\x7d") from rfl,
      List.map_const, List.length_range]
  · simp [add_figure, hc, hr]
  · rw [List.countP_eq_length_filter, emitFigsAux_filter_caption_none]
    rfl

/-- Concrete instance of `add_figure_captions`: three items, `c = 2`,
`r = 1`, giving two pages and bracketed captions. -/
theorem add_figure_captions_witness :
    ∃ out, add_figure [] ["a.png", "b.png", "c.png"] (some 2) (some 1)
        (some "T") = .ok ([] ++ out) ∧
      out.countP isCaptionLine =
        (figPartition ["a.png", "b.png", "c.png"] 2 1).length ∧
      ((figPartition ["a.png", "b.png", "c.png"] 2 1).length > 1 →
        out.filter isCaptionLine =
          (List.range (figPartition ["a.png", "b.png", "c.png"] 2 1).length).map
            (fun i => "\\caption\x7b" ++ "T" ++ " [" ++ toString (1 + i) ++ "]\x7d")) ∧
      (¬ (figPartition ["a.png", "b.png", "c.png"] 2 1).length > 1 →
        out.filter isCaptionLine =
          List.replicate (figPartition ["a.png", "b.png", "c.png"] 2 1).length
            ("\\caption\x7b" ++ "T" ++ "\x7d")) ∧
      ∃ outN, add_figure [] ["a.png", "b.png", "c.png"] (some 2) (some 1) none =
          .ok ([] ++ outN) ∧
        outN.countP isCaptionLine = 0 :=
  add_figure_captions [] ["a.png", "b.png", "c.png"] 2 1 "T" (by decide)
    (by decide)

/-- Claim C4. On a successful `add_figure` call, a blank separator line
follows every grid row except the last row of its page (a page with `k`
rows contains `k - 1` blanks), and a `\clearpage` marker follows every page
except the last (`pageCount - 1` markers in total). -/
theorem add_figure_separators (buf figs : List String) (c r : Int)
    (cap : Option String) (hc : c ≠ 0) (hr : r ≠ 0) :
    ∃ out, add_figure buf figs (some c) (some r) cap = .ok (buf ++ out) ∧
      out.countP (fun s => s == "") =
        ((figPartition figs c r).map (fun pg => pg.length - 1)).sum ∧
      out.countP (fun s => s == "\\clearpage") =
        (figPartition figs c r).length - 1 := by
  refine ⟨emitFigsAux (figSizingStr c) cap (figPartition figs c r).length 1
      (figPartition figs c r), ?_, ?_, ?_⟩
  · simp [add_figure, hc, hr]
  · rw [emitFigsAux_count_blank]
  · rw [emitFigsAux_count_clearpage _ _ _ 1 (figPartition figs c r).length
      (by omega)]

/-- Concrete instance of `add_figure_separators`: five items, `c = 2`,
`r = 2`, giving pages with 2 and 1 rows (blanks `1 + 0`) and one page
break. -/
theorem add_figure_separators_witness :
    ∃ out, add_figure ["pre"] ["a.png", "b.png", "c.png", "d.png", "e.png"]
        (some 2) (some 2) (some "T") = .ok (["pre"] ++ out) ∧
      out.countP (fun s => s == "") =
        ((figPartition ["a.png", "b.png", "c.png", "d.png", "e.png"] 2 2).map
          (fun pg => pg.length - 1)).sum ∧
      out.countP (fun s => s == "\\clearpage") =
        (figPartition ["a.png", "b.png", "c.png", "d.png", "e.png"] 2 2).length - 1 :=
  add_figure_separators ["pre"] ["a.png", "b.png", "c.png", "d.png", "e.png"]
    2 2 (some "T") (by decide) (by decide)

theorem emitFigsAux_beginSubfig (sizing : String) (cap : Option String)
    (P : List (List (List String))) :
    ∀ (idx total : Nat) (line : String),
      line ∈ emitFigsAux sizing cap total idx P →
      isBeginSubfig line = true →
      line = "\\begin\x7bsubfigure\x7d\x7b" ++ sizing ++ "\\textwidth\x7d" := by
  induction P with
  | nil => intro idx total line h _; cases h
  | cons pg rest ih =>
      intro idx total line h hb
      unfold emitFigsAux at h
      rw [List.mem_append] at h
      rcases h with h | h
      · unfold figPageLines at h
        rw [List.mem_append, List.mem_append, List.mem_append,
          List.mem_append] at h
        rcases h with (((h | h) | h) | h) | h
        · rw [List.mem_cons, List.mem_cons] at h
          rcases h with rfl | rfl | h
          · rw [show isBeginSubfig "\\begin\x7bfigure\x7d[H]" = false by decide] at hb
            cases hb
          · rw [show isBeginSubfig "\\centering" = false by decide] at hb
            cases hb
          · cases h
        · exact (emitRowsAux_lines sizing pg.length pg 1 line h).2.2 hb
        · cases cap with
          | none => cases h
          | some capStr =>
              rw [List.mem_singleton] at h
              subst h
              rw [captionLine_not_beginSubfig] at hb
              cases hb
        · rw [List.mem_singleton] at h
          subst h
          rw [show isBeginSubfig "\\end\x7bfigure\x7d" = false by decide] at hb
          cases hb
        · by_cases hx : total ≠ idx
          · rw [if_pos hx, List.mem_singleton] at h
            subst h
            rw [show isBeginSubfig "\\clearpage" = false by decide] at hb
            cases hb
          · rw [if_neg hx] at h
            cases h
      · exact ih (idx + 1) total line h hb

theorem mem_emitRowsAux_of (sizing : String) (total : Nat)
    (rgs : List (List String)) :
    ∀ (idx : Nat) (rg : List String) (g line : String),
      rg ∈ rgs → g ∈ rg → line ∈ emitGraph sizing g →
      line ∈ emitRowsAux sizing total idx rgs := by
  induction rgs with
  | nil => intro idx rg g line h _ _; cases h
  | cons rg0 rest ih =>
      intro idx rg g line hrg hg hline
      unfold emitRowsAux
      rw [List.mem_append, List.mem_append]
      rcases List.mem_cons.mp hrg with rfl | hrg
      · exact Or.inl (Or.inl (List.mem_flatMap.mpr ⟨g, hg, hline⟩))
      · exact Or.inr (ih (idx + 1) rg g line hrg hg hline)

theorem mem_emitFigsAux_of (sizing : String) (cap : Option String)
    (P : List (List (List String))) :
    ∀ (idx total : Nat) (pg : List (List String)) (rg : List String)
      (g line : String),
      pg ∈ P → rg ∈ pg → g ∈ rg → line ∈ emitGraph sizing g →
      line ∈ emitFigsAux sizing cap total idx P := by
  induction P with
  | nil => intro idx total pg rg g line h _ _ _; cases h
  | cons pg0 rest ih =>
      intro idx total pg rg g line hpg hrg hg hline
      unfold emitFigsAux
      rw [List.mem_append]
      rcases List.mem_cons.mp hpg with rfl | hpg
      · refine Or.inl ?_
        unfold figPageLines
        rw [List.mem_append, List.mem_append, List.mem_append, List.mem_append]
        exact Or.inl (Or.inl (Or.inl (Or.inr
          (mem_emitRowsAux_of sizing pg.length pg 1 rg g line hrg hg hline))))
      · exact Or.inr (ih (idx + 1) total pg rg g line hpg hrg hg hline)

theorem emitGraph_pgf (sizing g : String) (h : fileFormat g = some "pgf") :
    ("\\resizebox\x7b\\linewidth\x7d\x7b!\x7d\x7b\\input\x7b\"" ++ g ++ "\"\x7d\x7d")
      ∈ emitGraph sizing g := by
  unfold emitGraph
  rw [h]
  simp

theorem emitGraph_other (sizing g fmt : String) (h : fileFormat g = some fmt)
    (hne : fmt ≠ "pgf") :
    ("\\includegraphics[width=" ++ sizing ++ "\\textwidth]\x7b" ++ g ++ "\x7d")
      ∈ emitGraph sizing g := by
  unfold emitGraph
  rw [h]
  simp [beq_eq_false_iff_ne.mpr hne]

/-- Claim C6. With `maxCols = c ≥ 1`, every emitted begin-subfigure line
declares the same width fraction `floor(10/c)/10`; items with a `pgf`
format token produce a resize+input embed, and items with any other
recognized token produce a scale+include embed using the same fraction. -/
theorem add_figure_uniform_sizing (buf figs : List String) (c r : Nat)
    (cap : Option String) (hc : 1 ≤ c) (hr : 1 ≤ r) :
    figSizingStr (c : Int) = floatDecileStr (Int.fdiv 10 (c : Int)) ∧
    ∃ out, add_figure buf figs (some (c : Int)) (some (r : Int)) cap =
        .ok (buf ++ out) ∧
      (∀ line ∈ out, isBeginSubfig line = true →
        line = "\\begin\x7bsubfigure\x7d\x7b" ++ figSizingStr (c : Int)
          ++ "\\textwidth\x7d") ∧
      (∀ g ∈ figs,
        (fileFormat g = some "pgf" →
          ("\\resizebox\x7b\\linewidth\x7d\x7b!\x7d\x7b\\input\x7b\"" ++ g
            ++ "\"\x7d\x7d") ∈ out) ∧
        (∀ fmt, fileFormat g = some fmt → fmt ≠ "pgf" →
          ("\\includegraphics[width=" ++ figSizingStr (c : Int)
            ++ "\\textwidth]\x7b" ++ g ++ "\x7d") ∈ out)) := by
  have hcz : (c : Int) ≠ 0 := by
    exact_mod_cast (by omega : c ≠ 0)
  have hrz : (r : Int) ≠ 0 := by
    exact_mod_cast (by omega : r ≠ 0)
  refine ⟨rfl,
    emitFigsAux (figSizingStr (c : Int)) cap
      (figPartition figs (c : Int) (r : Int)).length 1
      (figPartition figs (c : Int) (r : Int)), ?_, ?_, ?_⟩
  · simp [add_figure, hcz, hrz]
  · intro line hline hb
    exact emitFigsAux_beginSubfig _ cap _ 1 _ line hline hb
  · intro g hg
    have hflat : (figPartition figs (c : Int) (r : Int)).flatten.flatten = figs := by
      rw [figPartition_eq_chunks figs c r hc hr, chunks_flatten _ r hr,
        chunks_flatten _ c hc]
    rw [← hflat] at hg
    rw [List.mem_flatten] at hg
    obtain ⟨rg, hrg, hg⟩ := hg
    rw [List.mem_flatten] at hrg
    obtain ⟨pg, hpg, hrg⟩ := hrg
    constructor
    · intro hfmt
      exact mem_emitFigsAux_of _ cap _ 1 _ pg rg g _ hpg hrg hg
        (emitGraph_pgf _ g hfmt)
    · intro fmt hfmt hne
      exact mem_emitFigsAux_of _ cap _ 1 _ pg rg g _ hpg hrg hg
        (emitGraph_other _ g fmt hfmt hne)

/-- Concrete instance of `add_figure_uniform_sizing`: one pgf and one png
item, `c = 2`, `r = 1`. -/
theorem add_figure_uniform_sizing_witness :
    figSizingStr ((2 : Nat) : Int) = floatDecileStr (Int.fdiv 10 ((2 : Nat) : Int)) ∧
    ∃ out, add_figure [] ["a.pgf", "b.png"] (some ((2 : Nat) : Int))
        (some ((1 : Nat) : Int)) none = .ok ([] ++ out) ∧
      (∀ line ∈ out, isBeginSubfig line = true →
        line = "\\begin\x7bsubfigure\x7d\x7b" ++ figSizingStr ((2 : Nat) : Int)
          ++ "\\textwidth\x7d") ∧
      (∀ g ∈ (["a.pgf", "b.png"] : List String),
        (fileFormat g = some "pgf" →
          ("\\resizebox\x7b\\linewidth\x7d\x7b!\x7d\x7b\\input\x7b\"" ++ g
            ++ "\"\x7d\x7d") ∈ out) ∧
        (∀ fmt, fileFormat g = some fmt → fmt ≠ "pgf" →
          ("\\includegraphics[width=" ++ figSizingStr ((2 : Nat) : Int)
            ++ "\\textwidth]\x7b" ++ g ++ "\x7d") ∈ out)) :=
  add_figure_uniform_sizing [] ["a.pgf", "b.png"] 2 1 none (by decide) (by decide)

/-- Counterexample to claim C7 as stated. With an empty subtitle the
title line still carries the subtitle markup `\\ \large `; it is not the
title alone. -/
theorem reportInit_counterexample :
    (reportInit "T" "" "A")[6]? = some "\\title\x7bT\\\\ \\large \x7d" ∧
    (reportInit "T" "" "A")[6]? ≠ some "\\title\x7bT\x7d" := by
  constructor
  · rfl
  · decide

/-- Claim C7 (amended). On construction the title line always combines
title and subtitle with the subtitle markup, even when the subtitle is
empty: it is `\title{<title>\\ \large <subtitle>}` unconditionally. -/
theorem reportInit_title_line (t s a : String) :
    (reportInit t s a)[6]? =
      some ("\\title\x7b" ++ t ++ "\\\\ \\large " ++ s ++ "\x7d") := rfl

/-- Claim C10. For an empty figure sequence with `maxCols` unset,
`add_figure` defaults `maxCols` to the sequence length 0 and raises an
unhandled division-by-zero in the row-count computation; the error carries
the untouched buffer (nothing is appended) and no `InvalidArgument`-style
report is produced. -/
theorem add_figure_empty_default (buf : List String) (cap : Option String) :
    add_figure buf [] none none cap = .error (.zeroDivision, buf) ∧
    ∀ b2, add_figure buf [] none none cap ≠ .error (.invalidArgument, b2) := by
  constructor
  · rfl
  · intro b2 h
    rw [show add_figure buf [] none none cap =
        .error (.zeroDivision, buf) from rfl] at h
    simp at h

/-- Claim C9. The buffer always retains the appended closing marker,
whatever the outcome of the writes; and in the partial-failure case (primary
text written, style copy failing) the error is surfaced while the primary
write is not rolled back. -/
theorem save_tex_io_failure (buf : List String) (styleSrc : Option String)
    (texOk styOk : Bool) :
    (save_tex buf styleSrc texOk styOk).report_text =
      buf ++ ["\\end\x7bdocument\x7d"] ∧
    (save_tex buf styleSrc true false).raised = true ∧
    (save_tex buf styleSrc true false).texWritten =
      some (String.intercalate "\n" (buf ++ ["\\end\x7bdocument\x7d"])) ∧
    (save_tex buf styleSrc true false).styWritten = none := by
  refine ⟨?_, ?_, ?_, ?_⟩ <;> cases texOk <;> cases styOk <;> cases styleSrc <;> rfl

/-- Counterexample to claim C5 as stated. An item without a recognizable
trailing format token contributes no lines at all: the begin/end-subitem
pair is not emitted either. -/
theorem add_figure_skip_counterexample :
    fileFormat "nodot" = none ∧
    add_figure [] ["nodot"] (some 1) (some 1) none =
      .ok ["\\begin\x7bfigure\x7d[H]", "\\centering", "\\end\x7bfigure\x7d"] := by
  constructor
  · rfl
  · rfl

/-- Claim C5 (amended). An item whose reference lacks a recognizable
trailing format token is skipped entirely: neither an embed line nor the
begin/end-subitem pair is emitted for that slot. -/
theorem emitGraph_skip (sizing graph : String) (h : fileFormat graph = none) :
    emitGraph sizing graph = [] := by
  unfold emitGraph
  rw [h]

/-- Concrete instance of `emitGraph_skip` on an extension-less reference. -/
theorem emitGraph_skip_witness :
    fileFormat "nodot" = none ∧ emitGraph "1.0" "nodot" = [] :=
  ⟨by decide, emitGraph_skip "1.0" "nodot" (by decide)⟩

/-! ### Degenerate bounds (claim C8) -/

theorem splitChunks_nilList {α : Type} (k : Int) :
    splitChunks ([] : List α) k = [] := by
  unfold splitChunks intCeilDiv
  simp [Int.zero_fdiv]

theorem splitChunks_neg {α : Type} (l : List α) (k : Int) (hk : k < 0) :
    splitChunks l k = [] := by
  unfold splitChunks
  rw [Int.toNat_of_nonpos (intCeilDiv_nonpos l.length k hk)]
  rfl

theorem colSplit_neg {α : Type} (table : List (List α)) (k : Int) (hk : k < 0) :
    colSplit table k = [] := by
  unfold colSplit
  rw [Int.toNat_of_nonpos (intCeilDiv_nonpos (shape1 table) k hk)]
  rfl

theorem rowSplitTab_neg {α : Type} (origRows : Nat) (k : Int) (hk : k < 0)
    (tabs : List (List (List α))) : rowSplitTab origRows k tabs = [] := by
  unfold rowSplitTab
  rw [Int.toNat_of_nonpos (intCeilDiv_nonpos origRows k hk)]
  simp

theorem shape1_of_rect {α : Type} (table : List (List α)) (C : Nat)
    (hne : table ≠ []) (hrect : ∀ row ∈ table, row.length = C) :
    shape1 table = C := by
  cases table with
  | nil => exact absurd rfl hne
  | cons row t =>
      show ((row :: t).headD []).length = C
      exact hrect row (List.mem_cons_self row t)

/-- Counterexample to claim C8 as stated. Non-positive bounds do not
produce an `InvalidArgument` report: with `maxCols = -1` both operations
complete silently with no failure at all, and with `maxCols = 0` the
failure is an unhandled division-by-zero. -/
theorem no_invalid_argument_counterexample :
    add_figure ["x"] ["a.png"] (some (-1)) (some 1) none = .ok ["x"] ∧
    add_figure ["x"] ["a.png"] (some 0) (some 1) none =
      .error (.zeroDivision, ["x"]) ∧
    add_table ["x"] (fun (_ : List (List Nat)) => ["R", ""]) [[0], [1]]
      (some (-1)) (some 1) none = .ok ["x"] := by
  refine ⟨rfl, rfl, rfl⟩

/-- Claim C8 (amended). Non-positive `maxCols`/`maxRows` are not
validated: a zero bound raises an unhandled division-by-zero (with the
buffer untouched), a negative bound produces an empty partition so the call
succeeds appending nothing, and no `InvalidArgument` report is produced in
either case. -/
theorem nonpositive_bounds_not_validated {α : Type} (buf figs : List String)
    (cap : Option String) (c r : Int) (render : List (List α) → List String)
    (table : List (List α)) (C : Nat) (hC : 1 ≤ C) (hR : 1 ≤ table.length)
    (hrect : ∀ row ∈ table, row.length = C) (h : c ≤ 0 ∨ r ≤ 0) :
    (add_figure buf figs (some c) (some r) cap = .ok buf ∨
     add_figure buf figs (some c) (some r) cap = .error (.zeroDivision, buf)) ∧
    (add_table buf render table (some c) (some r) cap = .ok buf ∨
     add_table buf render table (some c) (some r) cap =
       .error (.zeroDivision, buf)) := by
  have hsh : shape1 table = C :=
    shape1_of_rect table C (by intro hx; rw [hx] at hR; simp at hR) hrect
  constructor
  · by_cases hc0 : c = 0
    · right
      simp [add_figure, hc0]
    · by_cases hr0 : r = 0
      · right
        simp [add_figure, hc0, hr0]
      · left
        have hpart : figPartition figs c r = [] := by
          unfold figPartition
          rcases h with hcn | hrn
          · rw [splitChunks_neg figs c (by omega), splitChunks_nilList]
          · rw [splitChunks_neg _ r (by omega)]
        simp [add_figure, hc0, hr0, hpart]
        rfl
  · by_cases hc0 : c = 0
    · right
      have hgt : (shape1 table : Int) > c := by
        rw [hsh, hc0]
        exact_mod_cast hC
      unfold add_table
      simp only [Option.getD_some]
      rw [if_pos ⟨hgt, hc0⟩]
    · by_cases hr0 : r = 0
      · right
        have hgt : (table.length : Int) > r := by
          rw [hr0]
          exact_mod_cast hR
        unfold add_table
        simp only [Option.getD_some]
        rw [if_neg (fun hx => hc0 hx.2), if_pos ⟨hgt, hr0⟩]
      · left
        have hempty : tablePartition table c r = [] := by
          unfold tablePartition
          rcases h with hcn | hrn
          · have hcneg : c < 0 := by omega
            have hgt : (shape1 table : Int) > c := by
              rw [hsh]
              have : (0 : Int) ≤ (C : Int) := by positivity
              omega
            rw [if_pos hgt, colSplit_neg table c hcneg]
            by_cases hRr : (table.length : Int) > r
            · rw [if_pos hRr]
              rfl
            · rw [if_neg hRr]
          · have hrneg : r < 0 := by omega
            have hRr : (table.length : Int) > r := by
              have : (0 : Int) ≤ (table.length : Int) := by positivity
              omega
            rw [if_pos hRr, rowSplitTab_neg table.length r hrneg]
        unfold add_table
        simp only [Option.getD_some]
        rw [if_neg (fun hx => hc0 hx.2), if_neg (fun hx => hr0 hx.2), hempty]
        show Except.ok (buf ++ emitTablesAux render cap 0 1 []) = Except.ok buf
        rw [show emitTablesAux render cap 0 1 ([] : List (List (List α))) = []
          from rfl, List.append_nil]

/-- Concrete instance of `nonpositive_bounds_not_validated`: `c = -1`,
`r = 1`. -/
theorem nonpositive_bounds_not_validated_witness :
    (add_figure ["x"] ["a.png"] (some (-1)) (some 1) none = .ok ["x"] ∨
     add_figure ["x"] ["a.png"] (some (-1)) (some 1) none =
       .error (.zeroDivision, ["x"])) ∧
    (add_table ["x"] (fun (_ : List (List Nat)) => ["R", ""]) [[0], [1]]
        (some (-1)) (some 1) none = .ok ["x"] ∨
     add_table ["x"] (fun (_ : List (List Nat)) => ["R", ""]) [[0], [1]]
        (some (-1)) (some 1) none = .error (.zeroDivision, ["x"])) :=
  nonpositive_bounds_not_validated ["x"] ["a.png"] none (-1) 1
    (fun _ => ["R", ""]) [[0], [1]] 1 (by decide) (by decide) (by decide)
    (Or.inl (by decide))

/-! ### Table partition (claim C2) -/

theorem chunks_map {α β : Type} (f : α → β) (l : List α) (k : Nat) :
    chunks (l.map f) k = (chunks l k).map (List.map f) := by
  unfold chunks
  rw [List.length_map, List.map_map]
  apply List.map_congr_left
  intro i _
  simp only [Function.comp_apply]
  rw [← List.map_drop, ← List.map_take]

theorem flatMap_singleton_map {α β : Type} (l : List α) (f : α → β) :
    (l.flatMap fun x => [f x]) = l.map f := by
  induction l with
  | nil => rfl
  | cons a t ih =>
      rw [List.flatMap_cons, List.map_cons, ih]
      rfl

theorem colSplit_eq {α : Type} (table : List (List α)) (C c : Nat)
    (hc : 1 ≤ c) (hsh : shape1 table = C)
    (hrect : ∀ row ∈ table, row.length = C) :
    colSplit table (c : Int) =
      (List.range (ceilN C c)).map (fun j =>
        table.map (fun row => (row.drop (j * c)).take c)) := by
  unfold colSplit
  rw [hsh, intCeilDiv_natCast C c hc, Int.toNat_natCast]
  apply List.map_congr_left
  intro j hj
  rw [List.mem_range] at hj
  have hik : ((j : Int) + 1) * (c : Int) = (((j + 1) * c : Nat) : Int) := by
    push_cast
    ring
  have hik2 : (j : Int) * (c : Int) = ((j * c : Nat) : Int) := by push_cast; rfl
  rw [hik, hik2, Int.toNat_natCast, Int.toNat_natCast]
  by_cases hcase : (j + 1) * c < C
  · rw [if_pos (by exact_mod_cast hcase)]
    apply List.map_congr_left
    intro row _
    rw [List.drop_take, show (j + 1) * c - j * c = c by rw [Nat.succ_mul]; omega]
  · rw [if_neg (by exact_mod_cast hcase)]
    apply List.map_congr_left
    intro row hrow
    rw [List.take_of_length_le]
    rw [List.length_drop, hrect row hrow]
    rw [Nat.succ_mul] at hcase
    omega

theorem rowSplitTab_eq {α : Type} (origRows r : Nat) (hr : 1 ≤ r)
    (tabs : List (List (List α))) (hlen : ∀ t ∈ tabs, t.length = origRows) :
    rowSplitTab origRows (r : Int) tabs = tabs.flatMap (fun t => chunks t r) := by
  unfold rowSplitTab
  rw [List.flatMap_def, List.flatMap_def]
  congr 1
  apply List.map_congr_left
  intro t ht
  have htl : t.length = origRows := hlen t ht
  rw [← htl]
  exact splitChunks_eq_chunks t r hr

theorem tablePartition_eq {α : Type} (table : List (List α)) (C c r : Nat)
    (hC : 1 ≤ C) (hR : 1 ≤ table.length) (hc : 1 ≤ c) (hr : 1 ≤ r)
    (hrect : ∀ row ∈ table, row.length = C) :
    tablePartition table (c : Int) (r : Int) =
      (List.range (ceilN C c)).flatMap (fun j =>
        (List.range (ceilN table.length r)).map (fun i =>
          ((table.drop (i * r)).take r).map
            (fun row => (row.drop (j * c)).take c))) := by
  have hne : table ≠ [] := by
    intro hx
    rw [hx] at hR
    simp at hR
  have hsh : shape1 table = C := shape1_of_rect table C hne hrect
  have hcol : (if (shape1 table : Int) > (c : Int) then colSplit table (c : Int)
        else [table]) =
      (List.range (ceilN C c)).map (fun j =>
        table.map (fun row => (row.drop (j * c)).take c)) := by
    by_cases hcc : (shape1 table : Int) > (c : Int)
    · rw [if_pos hcc]
      exact colSplit_eq table C c hc hsh hrect
    · rw [if_neg hcc]
      have hCc : C ≤ c := by
        rw [hsh] at hcc
        exact_mod_cast not_lt.mp hcc
      have h1 : ceilN C c = 1 := by
        rw [ceilN_eq C c hC hc, Nat.div_eq_of_lt (by omega)]
      rw [h1, show List.range 1 = [0] from rfl, List.map_cons, List.map_nil]
      simp only [Nat.zero_mul, List.drop_zero]
      congr 1
      conv_lhs => rw [← List.map_id table]
      apply List.map_congr_left
      intro row hrow
      rw [id_eq, List.take_of_length_le (by rw [hrect row hrow]; omega)]
  unfold tablePartition
  rw [hcol]
  by_cases hRr : (table.length : Int) > (r : Int)
  · rw [if_pos hRr,
      rowSplitTab_eq table.length r hr _ (by
        intro t ht
        rw [List.mem_map] at ht
        obtain ⟨j, _, rfl⟩ := ht
        exact List.length_map table _),
      List.flatMap_map]
    rw [List.flatMap_def, List.flatMap_def]
    congr 1
    apply List.map_congr_left
    intro j _
    rw [chunks_map]
    unfold chunks
    rw [List.map_map]
    rfl
  · rw [if_neg hRr]
    have hRle : table.length ≤ r := by exact_mod_cast not_lt.mp hRr
    have h1 : ceilN table.length r = 1 := by
      rw [ceilN_eq table.length r hR hr, Nat.div_eq_of_lt (by omega)]
    rw [h1, show List.range 1 = [0] from rfl]
    simp only [List.map_cons, List.map_nil, Nat.zero_mul, List.drop_zero]
    rw [flatMap_singleton_map]
    apply List.map_congr_left
    intro j _
    rw [List.take_of_length_le hRle]

theorem tablePartition_length {α : Type} (table : List (List α)) (C c r : Nat)
    (hC : 1 ≤ C) (hR : 1 ≤ table.length) (hc : 1 ≤ c) (hr : 1 ≤ r)
    (hrect : ∀ row ∈ table, row.length = C) :
    (tablePartition table (c : Int) (r : Int)).length =
      ceilN C c * ceilN table.length r := by
  rw [tablePartition_eq table C c r hC hR hc hr hrect, List.length_flatMap]
  have hmap : ∀ j ∈ List.range (ceilN C c),
      (List.length ∘ (fun j => (List.range (ceilN table.length r)).map
        (fun i => ((table.drop (i * r)).take r).map
          (fun row => (row.drop (j * c)).take c)))) j =
      (fun (_ : Nat) => ceilN table.length r) j := by
    intro j _
    simp [Function.comp]
  rw [List.map_congr_left hmap,
    show (fun (_ : Nat) => ceilN table.length r) =
      Function.const Nat (ceilN table.length r) from rfl,
    List.map_const, List.length_range, List.sum_replicate, smul_eq_mul]

theorem intercalate_blank_cons (b : List String) (bs : List (List String))
    (h : bs ≠ []) :
    List.intercalate [""] (b :: bs) = b ++ [""] ++ List.intercalate [""] bs := by
  cases bs with
  | nil => exact absurd rfl h
  | cons c t => simp [List.intercalate, List.intersperse_cons_cons]

theorem emitTablesAux_eq_intercalate {α : Type}
    (render : List (List α) → List String) (cap : Option String)
    (tabs : List (List (List α))) :
    ∀ (idx total : Nat), idx + tabs.length = total + 1 →
      emitTablesAux render cap total idx tabs =
        List.intercalate [""] ((tabs.enumFrom idx).map
          (fun p => tableBlock render cap total p.1 p.2)) := by
  induction tabs with
  | nil => intro idx total _; rfl
  | cons t rest ih =>
      intro idx total hinv
      unfold emitTablesAux
      rw [List.enumFrom_cons, List.map_cons]
      cases rest with
      | nil =>
          have hidx : idx = total := by
            simp only [List.length_cons, List.length_nil] at hinv
            omega
          rw [if_neg (by omega),
            show emitTablesAux render cap total (idx + 1)
              ([] : List (List (List α))) = [] from rfl]
          simp [List.intercalate]
      | cons t2 rest2 =>
          have hidx : idx ≠ total := by
            simp only [List.length_cons] at hinv
            omega
          rw [if_pos hidx,
            ih (idx + 1) total (by simp only [List.length_cons] at hinv ⊢; omega),
            intercalate_blank_cons _ _
              (by rw [List.enumFrom_cons, List.map_cons]; exact List.cons_ne_nil _ _)]

/-- Claim C2. For a table with `R ≥ 1` rows and `C ≥ 1` columns and
`maxCols = c ≥ 1`, `maxRows = r ≥ 1`, `add_table` emits
`⌈C/c⌉ * ⌈R/r⌉` sub-tables in column-major-then-row-minor order (the `j`-th
column group contributes all of its row chunks consecutively before the
next column group), with exactly one blank separator line after every
sub-table except the last. -/
theorem add_table_split {α : Type} (buf : List String)
    (render : List (List α) → List String) (table : List (List α))
    (C c r : Nat) (cap : Option String)
    (hC : 1 ≤ C) (hR : 1 ≤ table.length) (hc : 1 ≤ c) (hr : 1 ≤ r)
    (hrect : ∀ row ∈ table, row.length = C) :
    (tablePartition table (c : Int) (r : Int)).length =
      ceilN C c * ceilN table.length r ∧
    tablePartition table (c : Int) (r : Int) =
      (List.range (ceilN C c)).flatMap (fun j =>
        (List.range (ceilN table.length r)).map (fun i =>
          ((table.drop (i * r)).take r).map
            (fun row => (row.drop (j * c)).take c))) ∧
    add_table buf render table (some (c : Int)) (some (r : Int)) cap =
      .ok (buf ++ List.intercalate [""]
        (((tablePartition table (c : Int) (r : Int)).enumFrom 1).map
          (fun p => tableBlock render cap
            (tablePartition table (c : Int) (r : Int)).length p.1 p.2))) := by
  have hcz : (c : Int) ≠ 0 := by exact_mod_cast (by omega : c ≠ 0)
  have hrz : (r : Int) ≠ 0 := by exact_mod_cast (by omega : r ≠ 0)
  refine ⟨tablePartition_length table C c r hC hR hc hr hrect,
    tablePartition_eq table C c r hC hR hc hr hrect, ?_⟩
  unfold add_table
  simp only [Option.getD_some]
  rw [if_neg (fun hx => hcz hx.2), if_neg (fun hx => hrz hx.2)]
  congr 1
  congr 1
  exact emitTablesAux_eq_intercalate render cap
    (tablePartition table (c : Int) (r : Int)) 1
    (tablePartition table (c : Int) (r : Int)).length (by omega)

/-- Concrete instance of `add_table_split`: a 3×3 table, `c = 2`, `r = 2`,
giving 4 sub-tables. -/
theorem add_table_split_witness :
    (tablePartition [[1, 2, 3], [4, 5, 6], [7, 8, 9]] (2 : Int) (2 : Int)).length =
      ceilN 3 2 * ceilN ([[1, 2, 3], [4, 5, 6], [7, 8, 9]] : List (List Nat)).length 2 ∧
    tablePartition [[1, 2, 3], [4, 5, 6], [7, 8, 9]] (2 : Int) (2 : Int) =
      (List.range (ceilN 3 2)).flatMap (fun j =>
        (List.range (ceilN ([[1, 2, 3], [4, 5, 6], [7, 8, 9]] : List (List Nat)).length 2)).map
          (fun i =>
            ((([[1, 2, 3], [4, 5, 6], [7, 8, 9]] : List (List Nat)).drop (i * 2)).take 2).map
              (fun row => (row.drop (j * 2)).take 2))) ∧
    add_table ["pre"] (fun (t : List (List Nat)) => [toString t.length, ""])
        [[1, 2, 3], [4, 5, 6], [7, 8, 9]] (some (2 : Int)) (some (2 : Int))
        (some "T") =
      .ok (["pre"] ++ List.intercalate [""]
        (((tablePartition [[1, 2, 3], [4, 5, 6], [7, 8, 9]] (2 : Int) (2 : Int)).enumFrom 1).map
          (fun p => tableBlock (fun (t : List (List Nat)) => [toString t.length, ""])
            (some "T")
            (tablePartition [[1, 2, 3], [4, 5, 6], [7, 8, 9]] (2 : Int) (2 : Int)).length
            p.1 p.2))) :=
  add_table_split ["pre"] (fun t => [toString t.length, ""])
    [[1, 2, 3], [4, 5, 6], [7, 8, 9]] 3 2 2 (some "T") (by decide) (by decide)
    (by decide) (by decide) (by decide)

end Haytex
